import Mathlib

/-!
Verification development for the board-position core of a Go engine
(`src/cc/position.h`, `src/cc/position.cc`).

The data model and operations below are a shallow embedding of the C++
source.  Machine integers are modelled as `Nat` with explicit `% 2^8`
(visitor epochs, `uint8_t`) and `% 2^16` (group `size` / `num_liberties`,
`uint16_t`) where the source does arithmetic on them.  The float `komi`
is modelled as `ℚ`; rounding of IEEE arithmetic is out of scope.

Headers that are part of the repository but absent from `src/`
(`constants.h`, `coord.h`, `color.h`, `stone.h`, `group.h`) are modelled
from the spec; each such definition carries a doc comment starting with
`Modelled from the spec:`.
-/

set_option maxRecDepth 100000

namespace Minigo

/-- Modelled from the spec: `constants.h` is not in `src/`.  §3 says `N` is a
compile-time constant, commonly 9 or 19; the spec's concrete scenarios use
9×9 boards, so we fix the edge length at 9. -/
def kN : Nat := 9

/-- `BoardArea = N·N` (spec §3). -/
def boardArea : Nat := kN * kN

/-- Modelled from the spec: `coord.h` is not in `src/`.  A coordinate is a
flat index in `[0, N·N)` plus sentinels `Pass` and `Invalid` outside the
normal range (§3).  We encode coordinates as `Nat` with the two sentinels
directly above the board range. -/
def kPass : Nat := boardArea

/-- Modelled from the spec: the `Invalid` sentinel of `coord.h` (§3). -/
def kInvalid : Nat := boardArea + 1

/-- Modelled from the spec: `color.h` is not in `src/`.  `Color` is one of
Empty/Black/White (§3). -/
inductive Color : Type
  | empty
  | black
  | white
deriving DecidableEq, Repr

/-- Modelled from the spec: the numeric encoding `Empty=0, Black=1, White=2`
(§3), relied on by the scoring flood fill. -/
def colorBits : Color → Nat
  | .empty => 0
  | .black => 1
  | .white => 2

/-- Modelled from the spec: `OtherColor` from `color.h` swaps Black and
White; it is only ever applied to Black or White (the source asserts this),
and we map `empty` to itself. -/
def OtherColor : Color → Color
  | .empty => .empty
  | .black => .white
  | .white => .black

/-- Modelled from the spec: `stone.h` is not in `src/`.  A stone cell is
either empty or a pair of a color and an owning group id (§3).  `{}` (the
value-initialized C++ `Stone`) is the empty cell. -/
structure Stone : Type where
  color : Color := Color.empty
  group_id : Nat := 0
deriving DecidableEq, Repr

instance : Inhabited Stone := ⟨{}⟩

/-- `stones_[c]` with C++ array indexing made total: out-of-range reads
return the empty cell. -/
def stoneAt (stones : List Stone) (c : Nat) : Stone :=
  stones.getD c {}

/-- Modelled from the spec: `group.h` is not in `src/`.  A group record has
`size` and `num_liberties` (§3); both are `uint16_t`-sized counters in the
source, so updates are taken `% 2^16`. -/
structure Group : Type where
  size : Nat := 0
  num_liberties : Nat := 0
deriving DecidableEq, Repr

/-- Modelled from the spec: `Group::kMaxNumGroups`, the pool capacity.
§3: "`MaxGroups` is an upper bound ≥ `BoardArea` (one group per stone in
the worst case)"; we take the minimal value `BoardArea`. -/
def kMaxNumGroups : Nat := boardArea

/-- Modelled from the spec: the group pool of `group.h` (§4.2): a slab of
group records keyed by small integer ids with O(1) `alloc`/`free` through
a free list.  So that exhaustion is observable as a statement rather than
an assertion failure, the backing store is allowed to grow past
`kMaxNumGroups`; `allocatedCount` counts ids allocated and not freed. -/
structure GroupPool : Type where
  groups : List Group := []
  free_ids : List Nat := []
deriving DecidableEq, Repr

/-- Subscript access into the pool. -/
def GroupPool.get (p : GroupPool) (id : Nat) : Group :=
  p.groups.getD id {}

/-- Write a group record back into the pool. -/
def GroupPool.set (p : GroupPool) (id : Nat) (g : Group) : GroupPool :=
  { p with groups := p.groups.set id g }

/-- Modelled from the spec: `alloc(size, num_liberties)` returns an unused
identifier, reusing a freed id when one exists (§4.2). -/
def GroupPool.alloc (p : GroupPool) (size num_liberties : Nat) :
    Nat × GroupPool :=
  match p.free_ids with
  | id :: rest =>
      (id, { groups := p.groups.set id { size, num_liberties },
             free_ids := rest })
  | [] =>
      (p.groups.length,
       { groups := p.groups ++ [{ size, num_liberties }], free_ids := [] })

/-- Modelled from the spec: `free(id)` releases the identifier (§4.2). -/
def GroupPool.free (p : GroupPool) (id : Nat) : GroupPool :=
  { p with free_ids := id :: p.free_ids }

/-- Number of ids allocated and not freed. -/
def GroupPool.allocatedCount (p : GroupPool) : Nat :=
  p.groups.length - p.free_ids.length

/-- The static neighbor table of `position.cc` (`kNeighborCoords`): the
orthogonal in-board neighbors of a point, in the source's order
(left, right, up, down).  Sentinels and out-of-range values have no
neighbors. -/
def neighborCoords (c : Nat) : List Nat :=
  if c < boardArea then
    let row := c / kN
    let col := c % kN
    (if 0 < col then [c - 1] else []) ++
    (if col < kN - 1 then [c + 1] else []) ++
    (if 0 < row then [c - kN] else []) ++
    (if row < kN - 1 then [c + kN] else [])
  else []

/-- `BoardVisitor` (`position.h`): epoch-tagged visited set over board
points with a LIFO stack of pending points.  `epoch_` is a `uint8_t`. -/
structure BoardVisitor : Type where
  stack : List Nat := []
  visited : List Nat := List.replicate boardArea 0
  epoch : Nat := 0
deriving DecidableEq, Repr

/-- `BoardVisitor::Begin`: clears the tags when the pre-increment epoch is
zero, then increments the epoch modulo 2^8. -/
def BoardVisitor.Begin (bv : BoardVisitor) : BoardVisitor :=
  let bv' := if bv.epoch = 0 then
    { bv with visited := List.replicate boardArea 0 } else bv
  { bv' with epoch := (bv'.epoch + 1) % 256 }

/-- `BoardVisitor::Done`. -/
def BoardVisitor.Done (bv : BoardVisitor) : Bool :=
  bv.stack.isEmpty

/-- `BoardVisitor::Next`: pops the most recently pushed point. -/
def BoardVisitor.Next (bv : BoardVisitor) : Nat × BoardVisitor :=
  (bv.stack.headD 0, { bv with stack := bv.stack.tail })

/-- `BoardVisitor::Visit`: first visit per epoch tags the point, pushes it
and returns true; otherwise returns false. -/
def BoardVisitor.Visit (bv : BoardVisitor) (c : Nat) : Bool × BoardVisitor :=
  if bv.visited.getD c 0 ≠ bv.epoch then
    (true, { bv with visited := bv.visited.set c bv.epoch,
                     stack := c :: bv.stack })
  else
    (false, bv)

/-- `GroupVisitor` (`position.h`): epoch-tagged visited set over group ids,
no pending queue. -/
structure GroupVisitor : Type where
  visited : List Nat := List.replicate kMaxNumGroups 0
  epoch : Nat := 0
deriving DecidableEq, Repr

/-- `GroupVisitor::Begin`. -/
def GroupVisitor.Begin (gv : GroupVisitor) : GroupVisitor :=
  let gv' := if gv.epoch = 0 then
    { gv with visited := List.replicate kMaxNumGroups 0 } else gv
  { gv' with epoch := (gv'.epoch + 1) % 256 }

/-- `GroupVisitor::Visit`. -/
def GroupVisitor.Visit (gv : GroupVisitor) (id : Nat) : Bool × GroupVisitor :=
  if gv.visited.getD id 0 ≠ gv.epoch then
    (true, { gv with visited := gv.visited.set id gv.epoch })
  else
    (false, gv)

/-- `Position` (`position.h`): stones, group pool, scratch visitors and the
scalar fields.  The two visitors are externally owned scratch in the
source; we carry their state inside the record so that mutations through
them are explicit. -/
structure Position : Type where
  stones : List Stone := List.replicate boardArea {}
  board_visitor : BoardVisitor := {}
  group_visitor : GroupVisitor := {}
  groups : GroupPool := {}
  to_play : Color
  previous_move : Nat := kInvalid
  ko : Nat := kInvalid
  num_captures : Nat × Nat := (0, 0)
  n : Nat := 0
  num_consecutive_passes : Nat := 0
  komi : ℚ
deriving DecidableEq

/-- `Position::Position(bv, gv, komi, to_play, n)`: the empty board. -/
def emptyPosition (komi : ℚ) (to_play : Color) (n : Nat := 0) : Position :=
  { to_play, komi, n }

/-- Loop body of `Position::IsKoish`: scans the neighbors carrying the
`ko_color` accumulator; any empty neighbor or second color aborts with
`Empty`. -/
def koishLoop (stones : List Stone) : List Nat → Color → Color
  | [], ko_color => ko_color
  | nc :: rest, ko_color =>
      let s := stoneAt stones nc
      if s.color = Color.empty then Color.empty
      else if s.color ≠ ko_color then
        if ko_color = Color.empty then koishLoop stones rest s.color
        else Color.empty
      else koishLoop stones rest ko_color

/-- `Position::IsKoish`: returns color `C` if the point is empty and every
in-board neighbor is a stone of color `C`; `Empty` otherwise. -/
def IsKoish (stones : List Stone) (c : Nat) : Color :=
  if (stoneAt stones c).color ≠ Color.empty then Color.empty
  else koishLoop stones (neighborCoords c) Color.empty

/-- Loop body of `Position::IsMoveSuicidal`: any empty neighbor, any
opponent neighbor group at exactly one liberty, or any own-color neighbor
group with more than one liberty makes the move non-suicidal. -/
def suicidalLoop (stones : List Stone) (pool : GroupPool)
    (other_color : Color) : List Nat → Bool
  | [] => true
  | nc :: rest =>
      let s := stoneAt stones nc
      if s.color = Color.empty then false
      else if s.color = other_color then
        if (pool.get s.group_id).num_liberties = 1 then false
        else suicidalLoop stones pool other_color rest
      else
        if (pool.get s.group_id).num_liberties > 1 then false
        else suicidalLoop stones pool other_color rest

/-- `Position::IsMoveSuicidal`. -/
def IsMoveSuicidal (stones : List Stone) (pool : GroupPool) (c : Nat)
    (color : Color) : Bool :=
  suicidalLoop stones pool (OtherColor color) (neighborCoords c)

/-- `Position::IsMoveLegal`: pass is always legal; otherwise the cell must
be empty, differ from the ko point, and the move must not be suicidal for
`to_play`. -/
def IsMoveLegal (p : Position) (c : Nat) : Bool :=
  if c = kPass then true
  else if (stoneAt p.stones c).color ≠ Color.empty then false
  else if c = p.ko then false
  else if IsMoveSuicidal p.stones p.groups c p.to_play then false
  else true

/-- `Position::HasNeighboringGroup`. -/
def HasNeighboringGroup (stones : List Stone) (c : Nat) (group_id : Nat) :
    Bool :=
  (neighborCoords c).any fun nc =>
    let s := stoneAt stones nc
    s.color ≠ Color.empty ∧ s.group_id = group_id

/-- Fuel bound for the visitor-driven flood-fill loops: every traversal
pops at most `boardArea` points (each board point is pushed at most once
per epoch), so `boardArea + 1` iterations always reach `Done`. -/
def kFuel : Nat := boardArea + 1

/-- `tiny_set<GroupId, 4>::insert`, as used on the neighbor sets: keeps
first-insertion order and drops duplicates. -/
def insertSet (l : List Nat) (x : Nat) : List Nat :=
  if x ∈ l then l else l ++ [x]

/-- Per-neighbor step of the `RemoveGroup` loop body: a distinct
other-color neighbor group gains one liberty, a same-color neighbor is
queued, anything else is ignored. -/
def removeStep (removed_color other_color : Color)
    (acc : Position × List Nat) (nc : Nat) : Position × List Nat :=
  let (s, other_groups) := acc
  let ns := stoneAt s.stones nc
  if ns.color = other_color then
    if ns.group_id ∈ other_groups then acc
    else
      let g := s.groups.get ns.group_id
      let g' := { g with num_liberties := (g.num_liberties + 1) % 65536 }
      ({ s with groups := s.groups.set ns.group_id g' },
       other_groups ++ [ns.group_id])
  else if ns.color = removed_color then
    ({ s with board_visitor := (s.board_visitor.Visit nc).2 }, other_groups)
  else acc

/-- Loop body of `Position::RemoveGroup`: pop a stone of the removed group,
empty the cell, give one liberty to each distinct other-color neighbor
group of that stone, and queue same-color neighbors. -/
def removeLoop (removed_color other_color : Color) :
    Nat → Position → Position
  | 0, s => s
  | fuel + 1, s =>
      if s.board_visitor.Done then s
      else
        let (c, bv) := s.board_visitor.Next
        let s := { s with stones := s.stones.set c {}, board_visitor := bv }
        let s := ((neighborCoords c).foldl
          (removeStep removed_color other_color) (s, [])).1
        removeLoop removed_color other_color fuel s

/-- `Position::RemoveGroup`: flood-fills the group holding the stone at `c`
off the board, updating neighboring groups' liberty counts.  (Note: the
source begins the group visitor here but never uses it, and it does not
free the removed group's id.) -/
def RemoveGroup (s : Position) (c : Nat) : Position :=
  let removed_color := (stoneAt s.stones c).color
  let other_color := OtherColor removed_color
  let gv := s.group_visitor.Begin
  let bv := s.board_visitor.Begin
  let bv := (bv.Visit c).2
  removeLoop removed_color other_color kFuel
    { s with board_visitor := bv, group_visitor := gv }

/-- Neighbor step of the `MergeGroup` loop body: queue every neighbor that
is not of the opponent color (same-color stones to absorb and empty points
to count as liberties). -/
def mergeVisit (stones : List Stone) (opponent_color : Color)
    (bv : BoardVisitor) (nc : Nat) : BoardVisitor :=
  if (stoneAt stones nc).color ≠ opponent_color then (bv.Visit nc).2 else bv

/-- Loop body of `Position::MergeGroup`: pop a point; an empty point counts
one liberty, a stone of the merged color is re-tagged with the target id
and its non-opponent neighbors are queued. -/
def mergeLoop (st : Stone) (color opponent_color : Color) (gid : Nat) :
    Nat → Position → Position
  | 0, s => s
  | fuel + 1, s =>
      if s.board_visitor.Done then s
      else
        let (c, bv) := s.board_visitor.Next
        let s := { s with board_visitor := bv }
        let s :=
          if (stoneAt s.stones c).color = Color.empty then
            let g := s.groups.get gid
            let g' := { g with
              num_liberties := (g.num_liberties + 1) % 65536 }
            { s with groups := s.groups.set gid g' }
          else
            let g := s.groups.get gid
            let g' := { g with size := (g.size + 1) % 65536 }
            let s := { s with
              groups := s.groups.set gid g',
              stones := s.stones.set c st }
            let bv := (neighborCoords c).foldl
              (mergeVisit s.stones opponent_color) s.board_visitor
            { s with board_visitor := bv }
        mergeLoop st color opponent_color gid fuel s

/-- `Position::MergeGroup`: recomputes the size and liberty count of the
group of the stone at `c` from scratch by flood fill, re-tagging every
absorbed stone. -/
def MergeGroup (s : Position) (c : Nat) : Position :=
  let st := stoneAt s.stones c
  let color := st.color
  let opponent_color := OtherColor color
  let g := s.groups.get st.group_id
  let g' := { g with size := 0, num_liberties := 0 }
  let s := { s with groups := s.groups.set st.group_id g' }
  let bv := s.board_visitor.Begin
  let bv := (bv.Visit c).2
  mergeLoop st color opponent_color st.group_id kFuel
    { s with board_visitor := bv }

/-- Accumulator of the neighbor scan at the top of
`Position::AddStoneToBoard`. -/
structure ScanResult : Type where
  pool : GroupPool
  captured : List (Nat × Nat) := []
  liberties : List Nat := []
  opponent_groups : List Nat := []
  neighbor_groups : List Nat := []
deriving DecidableEq

/-- Per-neighbor step of the scan at the top of `AddStoneToBoard`: an empty
neighbor is a liberty; a same-color neighbor's group is remembered; a
distinct opponent neighbor group has its liberty count decremented once and
is recorded as captured when the count reaches zero. -/
def scanStep (stones : List Stone) (color opponent_color : Color)
    (acc : ScanResult) (nc : Nat) : ScanResult :=
  let neighbor := stoneAt stones nc
  if neighbor.color = Color.empty then
    { acc with liberties := acc.liberties ++ [nc] }
  else if neighbor.color = color then
    let ngs := insertSet acc.neighbor_groups neighbor.group_id
    { acc with neighbor_groups := ngs }
  else if neighbor.color = opponent_color then
    if neighbor.group_id ∈ acc.opponent_groups then acc
    else
      let g := acc.pool.get neighbor.group_id
      let libs := (g.num_liberties + 65535) % 65536
      let g' := { g with num_liberties := libs }
      let acc := { acc with
        opponent_groups := acc.opponent_groups ++ [neighbor.group_id],
        pool := acc.pool.set neighbor.group_id g' }
      if libs = 0 then
        { acc with captured := acc.captured ++ [(neighbor.group_id, nc)] }
      else acc
  else acc

/-- The neighbor scan of `Position::AddStoneToBoard`: collects liberties
and same-color neighbor groups, decrements each distinct opponent neighbor
group's liberty count once, and records the groups that reach zero
liberties together with the neighbor coordinate they were seen at. -/
def addScan (stones : List Stone) (pool : GroupPool) (color : Color)
    (ncs : List Nat) : ScanResult :=
  ncs.foldl (scanStep stones color (OtherColor color)) { pool }

/-- Freeing one absorbed group id after a merge in `AddStoneToBoard`. -/
def freeStep (s : Position) (gid : Nat) : Position :=
  { s with groups := s.groups.free gid }

/-- The stone-placement step of `Position::AddStoneToBoard`: a fresh group
when there is no same-color neighbor, an incremental size/liberty update
when there is exactly one, and a from-scratch merge (freeing the absorbed
ids) when there are several. -/
def placeStone (s : Position) (c : Nat) (color : Color) (scan : ScanResult) :
    Position :=
  match scan.neighbor_groups with
  | [] =>
      let (id, pool) := s.groups.alloc 1 (scan.liberties.length % 65536)
      { s with stones := s.stones.set c { color, group_id := id },
               groups := pool }
  | group_id :: rest =>
      if rest = [] then
        let g := s.groups.get group_id
        let libs := (g.num_liberties + 65535) % 65536
        let libs := scan.liberties.foldl (fun libs nc =>
            if HasNeighboringGroup s.stones nc group_id then libs
            else (libs + 1) % 65536) libs
        let g' := { size := (g.size + 1) % 65536, num_liberties := libs :
          Group }
        { s with
          groups := s.groups.set group_id g',
          stones := s.stones.set c { color, group_id } }
      else
        let s := { s with stones := s.stones.set c { color, group_id } }
        let s := MergeGroup s c
        rest.foldl freeStep s

/-- One captured group of the capture step of `AddStoneToBoard`: its size
is added to the mover's capture counter, then it is removed from the
board. -/
def captureStep (color : Color) (s : Position) (p : Nat × Nat) : Position :=
  let num_captured_stones := (s.groups.get p.1).size
  let s :=
    if color = Color.black then
      { s with num_captures :=
          (s.num_captures.1 + num_captured_stones, s.num_captures.2) }
    else
      { s with num_captures :=
          (s.num_captures.1, s.num_captures.2 + num_captured_stones) }
  RemoveGroup s p.2

/-- The capture step of `Position::AddStoneToBoard`: for each captured
group, add its size to the mover's capture counter and remove it from the
board. -/
def removeCaptured (s : Position) (color : Color)
    (captured : List (Nat × Nat)) : Position :=
  captured.foldl (captureStep color) s

/-- The ko update at the end of `Position::AddStoneToBoard`. -/
def updateKo (s : Position) (captured : List (Nat × Nat))
    (potential_ko opponent_color : Color) : Position :=
  match captured with
  | [(gid, nc)] =>
      if (s.groups.get gid).size = 1 ∧ potential_ko = opponent_color then
        { s with ko := nc }
      else
        { s with ko := kInvalid }
  | _ => { s with ko := kInvalid }

/-- The neighbor scan of `AddStoneToBoard` applied to a position. -/
def addStoneScan (s : Position) (c : Nat) (color : Color) : ScanResult :=
  addScan s.stones s.groups color (neighborCoords c)

/-- `AddStoneToBoard` up to (and including) capture removal: scan the
neighbors, place the stone, remove the captured groups. -/
def addStonePlaced (s : Position) (c : Nat) (color : Color) : Position :=
  let scan := addStoneScan s c color
  let s := { s with groups := scan.pool }
  let s := placeStone s c color scan
  removeCaptured s color scan.captured

/-- `Position::AddStoneToBoard`: scan, place, capture, then the ko update;
`potential_ko` is `IsKoish` of the position before the stone is placed. -/
def AddStoneToBoard (s : Position) (c : Nat) (color : Color) : Position :=
  updateKo (addStonePlaced s c color) (addStoneScan s c color).captured
    (IsKoish s.stones c) (OtherColor color)

/-- `Position::PassMove`. -/
def PassMove (s : Position) : Position :=
  { s with n := s.n + 1,
           num_consecutive_passes := s.num_consecutive_passes + 1,
           ko := kInvalid,
           to_play := OtherColor s.to_play,
           previous_move := kPass }

/-- `Position::PlayMove`: pass is handled first (ignoring the color
argument); otherwise an explicit non-Empty color overrides `to_play`.
The source's `assert(IsMoveLegal(c))` is a precondition, not a state
change, so the function is total here. -/
def PlayMove (s : Position) (c : Nat) (color : Color := Color.empty) :
    Position :=
  if c = kPass then PassMove s
  else
    let s := if color = Color.empty then s else { s with to_play := color }
    let color := if color = Color.empty then s.to_play else color
    let s := AddStoneToBoard s c color
    { s with n := s.n + 1,
             num_consecutive_passes := 0,
             to_play := OtherColor s.to_play,
             previous_move := c }

/-- The color a non-pass `PlayMove` actually plays: the explicit color
when given, `to_play` otherwise (the prologue of `Position::PlayMove`). -/
def moverColor (s : Position) (col : Color) : Color :=
  if col = Color.empty then s.to_play else col

/-- The position a non-pass `PlayMove` proceeds from after the prologue:
`to_play` is overridden by an explicit color. -/
def overriddenPos (s : Position) (col : Color) : Position :=
  if col = Color.empty then s else { s with to_play := col }

/-- Fold a list of (coordinate, color) moves through `PlayMove`. -/
def playMoves (s : Position) (ms : List (Nat × Color)) : Position :=
  ms.foldl (fun s m => PlayMove s m.1 m.2) s

/-- Whether every move of a sequence is legal at the moment it is played
(for an explicitly colored move the source checks legality after the
`to_play` override). -/
def legalSeq : Position → List (Nat × Color) → Bool
  | _, [] => true
  | s, (c, color) :: ms =>
      let s' := if c = kPass ∨ color = Color.empty then s
                else { s with to_play := color }
      IsMoveLegal s' c && legalSeq (PlayMove s c color) ms

/-- Per-neighbor step inside `score_empty_area`: queue empty neighbors,
OR the color bits of stones into `found_bits`. -/
def areaStep (stones : List Stone) (acc : BoardVisitor × Nat) (nc : Nat) :
    BoardVisitor × Nat :=
  let color := (stoneAt stones nc).color
  if color = Color.empty then ((acc.1.Visit nc).2, acc.2)
  else (acc.1, acc.2 ||| colorBits color)

/-- Inner do-while loop of the `score_empty_area` lambda in
`Position::CalculateScore`: pops empty points, counting them and OR-ing
the color bits of adjacent stones, queueing adjacent empty points. -/
def scoreAreaLoop (stones : List Stone) :
    Nat → BoardVisitor → Nat → Nat → Nat × Nat × BoardVisitor
  | 0, bv, num_visited, found_bits =>
      let c := bv.Next.1
      let acc := (neighborCoords c).foldl (areaStep stones)
        (bv.Next.2, found_bits)
      (num_visited + 1, acc.2, acc.1)
  | fuel + 1, bv, num_visited, found_bits =>
      let c := bv.Next.1
      let acc := (neighborCoords c).foldl (areaStep stones)
        (bv.Next.2, found_bits)
      if acc.1.Done then (num_visited + 1, acc.2, acc.1)
      else scoreAreaLoop stones fuel acc.1 (num_visited + 1) acc.2

/-- `score_empty_area`: the contribution of one empty region — its size if
bordered by Black only, minus its size if by White only, zero otherwise. -/
def scoreEmptyArea (stones : List Stone) (bv : BoardVisitor) :
    Int × BoardVisitor :=
  let r := scoreAreaLoop stones kFuel bv 0 0
  if r.2.1 = 1 then ((r.1 : Int), r.2.2)
  else if r.2.1 = 2 then (-(r.1 : Int), r.2.2)
  else (0, r.2.2)

/-- The per-point fold of `Position::CalculateScore` over the board. -/
def scoreFold (stones : List Stone) (pool : GroupPool) :
    List Nat → Int × BoardVisitor × GroupVisitor →
    Int × BoardVisitor × GroupVisitor
  | [], acc => acc
  | c :: rest, acc =>
      let score := acc.1
      let bv := acc.2.1
      let gv := acc.2.2
      let s := stoneAt stones c
      if s.color = Color.empty then
        if (bv.Visit c).1 then
          let r := scoreEmptyArea stones (bv.Visit c).2
          scoreFold stones pool rest (score + r.1, r.2, gv)
        else scoreFold stones pool rest (score, (bv.Visit c).2, gv)
      else
        if (gv.Visit s.group_id).1 then
          let size := ((pool.get s.group_id).size : Int)
          if s.color = Color.black then
            scoreFold stones pool rest
              (score + size, bv, (gv.Visit s.group_id).2)
          else
            scoreFold stones pool rest
              (score - size, bv, (gv.Visit s.group_id).2)
        else scoreFold stones pool rest (score, bv, (gv.Visit s.group_id).2)

/-- The integer part of `Position::CalculateScore` (stones plus
single-color territory, Black minus White), together with the visitor
states it leaves behind. -/
def CalculateScoreInt (s : Position) : Int × BoardVisitor × GroupVisitor :=
  let gv := s.group_visitor.Begin
  let bv := s.board_visitor.Begin
  scoreFold s.stones s.groups (List.range boardArea) (0, bv, gv)

/-- `Position::CalculateScore`: the integer score minus komi, from Black's
perspective.  The C++ float return is modelled as `ℚ`. -/
def CalculateScore (s : Position) : ℚ :=
  ((CalculateScoreInt s).1 : ℚ) - s.komi

/-- Replacing every Black stone by a White one and vice versa (the color
swap of the scoring-symmetry law; `OtherColor` fixes `empty`). -/
def swapStone (st : Stone) : Stone :=
  { st with color := OtherColor st.color }

/-- A position with every stone's color swapped; group pool, komi and the
scratch visitors are unchanged. -/
def swapPosition (s : Position) : Position :=
  { s with stones := s.stones.map swapStone }

/-- The action of the color swap on the `found_bits` mask of the scoring
flood fill (Black bit 1 and White bit 2 trade places). -/
def swapFB : Nat → Nat
  | 1 => 2
  | 2 => 1
  | n => n

/-- The length of the trailing run of Pass moves of a move list. -/
def trailingPasses (ms : List (Nat × Color)) : Nat :=
  (ms.reverse.takeWhile fun m => decide (m.1 = kPass)).length

/-- Number of non-empty cells whose stone carries the given group id. -/
def stonesWithGroup (stones : List Stone) (gid : Nat) : Nat :=
  (stones.filter fun st =>
    decide (st.color ≠ Color.empty) && decide (st.group_id = gid)).length

/-! ### Concrete scenarios referenced by the theorems -/

/-- A three-move legal game on the 9×9 board, played strictly in turn with
the default color: Black 1, White on the corner point 0, Black 9 capturing
the white corner stone. -/
def captureMoves : List (Nat × Color) :=
  [(1, Color.empty), (0, Color.empty), (9, Color.empty)]

/-- The position after `captureMoves`. -/
def capturePos : Position :=
  playMoves (emptyPosition 0 Color.black) captureMoves

/-- An in-turn game leaving black stones on both in-board neighbors of the
corner point 0 (the white stone goes to the far point 60). -/
def cornerMoves : List (Nat × Color) :=
  [(1, Color.empty), (60, Color.empty), (9, Color.empty)]

/-- The position after `cornerMoves`: the corner point 0 is empty and both
of its in-board neighbors are black. -/
def cornerPos : Position :=
  playMoves (emptyPosition 0 Color.black) cornerMoves

/-- In-turn setup of a standard ko shape around point 41 = (4,5): black
stones on 39, 31, 49 (plus a spare black move on 70), white stones on 32,
50, 42 and finally the single white stone on 40 whose only liberty is
41. -/
def koSetupMoves : List (Nat × Color) :=
  [(39, Color.empty), (32, Color.empty), (31, Color.empty),
   (50, Color.empty), (49, Color.empty), (42, Color.empty),
   (70, Color.empty), (40, Color.empty)]

/-- The position after `koSetupMoves`. -/
def koSetup : Position :=
  playMoves (emptyPosition 0 Color.black) koSetupMoves

/-- The position after Black takes the ko: playing 41 captures the single
white stone on 40 from a point all of whose neighbors were white. -/
def koTaken : Position := PlayMove koSetup 41 Color.black

/-- Setup for the pool-exhaustion game: two mirrored corner ko shapes.
White stone 0 (sole liberty 1) with black wall 9 and white walls 2, 10;
black stone 80 (sole liberty 79) with white wall 71 and black walls
78, 70. -/
def poolSetupMoves : List (Nat × Color) :=
  [(9, Color.black), (2, Color.white), (10, Color.white), (0, Color.white),
   (71, Color.white), (78, Color.black), (70, Color.black),
   (80, Color.black)]

/-- A legal 82-move game built from `poolSetupMoves` followed by 74
single-stone ko captures alternating between the two corner kos; the two
ko bans never coincide with the point being played.  Every capture
allocates one fresh group id and frees none, because `RemoveGroup` never
returns the captured group's id to the pool. -/
def poolMoves : List (Nat × Color) :=
  poolSetupMoves ++ [(1, Color.black), (79, Color.white)] ++
    (List.replicate 18
      [(0, Color.white), (80, Color.black), (1, Color.black),
       (79, Color.white)]).flatten

/-- The position after `poolMoves`. -/
def poolPos : Position :=
  playMoves (emptyPosition 0 Color.black) poolMoves

/-! ### Helper lemmas -/

lemma PlayMove_pass (s : Position) (color : Color) :
    PlayMove s kPass color =
      { s with n := s.n + 1,
               num_consecutive_passes := s.num_consecutive_passes + 1,
               ko := kInvalid,
               to_play := OtherColor s.to_play,
               previous_move := kPass } := rfl

lemma PlayMove_nonpass (s : Position) (c : Nat) (col : Color)
    (h : c ≠ kPass) :
    PlayMove s c col =
      (let s' := if col = Color.empty then s else { s with to_play := col }
       let color := if col = Color.empty then s'.to_play else col
       let s'' := AddStoneToBoard s' c color
       { s'' with n := s''.n + 1,
                  num_consecutive_passes := 0,
                  to_play := OtherColor s''.to_play,
                  previous_move := c }) := by
  simp only [PlayMove, if_neg h]

lemma removeStep_to_play (rc oc : Color) (acc : Position × List Nat)
    (nc : Nat) : ((removeStep rc oc acc nc).1).to_play = (acc.1).to_play := by
  rcases acc with ⟨s, og⟩
  unfold removeStep
  dsimp only
  split_ifs <;> rfl

lemma foldl_removeStep_to_play (rc oc : Color) (l : List Nat)
    (acc : Position × List Nat) :
    ((l.foldl (removeStep rc oc) acc).1).to_play = (acc.1).to_play := by
  induction l generalizing acc with
  | nil => rfl
  | cons x xs ih => rw [List.foldl_cons, ih, removeStep_to_play]

lemma removeLoop_to_play (rc oc : Color) (fuel : Nat) (s : Position) :
    (removeLoop rc oc fuel s).to_play = s.to_play := by
  induction fuel generalizing s with
  | zero => rfl
  | succ f ih =>
      rw [removeLoop]
      split
      · rfl
      · rw [ih, foldl_removeStep_to_play]

lemma RemoveGroup_to_play (s : Position) (c : Nat) :
    (RemoveGroup s c).to_play = s.to_play := by
  unfold RemoveGroup
  rw [removeLoop_to_play]

lemma mergeLoop_to_play (st : Stone) (color oc : Color) (gid : Nat)
    (fuel : Nat) (s : Position) :
    (mergeLoop st color oc gid fuel s).to_play = s.to_play := by
  induction fuel generalizing s with
  | zero => rfl
  | succ f ih =>
      rw [mergeLoop]
      split
      · rfl
      · rw [ih]
        dsimp only
        split <;> rfl

lemma MergeGroup_to_play (s : Position) (c : Nat) :
    (MergeGroup s c).to_play = s.to_play := by
  unfold MergeGroup
  rw [mergeLoop_to_play]

lemma freeStep_foldl_to_play (l : List Nat) (s : Position) :
    (l.foldl freeStep s).to_play = s.to_play := by
  induction l generalizing s with
  | nil => rfl
  | cons x xs ih => rw [List.foldl_cons]; exact ih _

lemma placeStone_to_play (s : Position) (c : Nat) (color : Color)
    (scan : ScanResult) : (placeStone s c color scan).to_play = s.to_play := by
  unfold placeStone
  rcases scan.neighbor_groups with _ | ⟨g, rest⟩
  · rfl
  · dsimp only
    split
    · rfl
    · rw [freeStep_foldl_to_play, MergeGroup_to_play]

lemma captureStep_to_play (color : Color) (s : Position) (p : Nat × Nat) :
    (captureStep color s p).to_play = s.to_play := by
  unfold captureStep
  dsimp only
  split <;> rw [RemoveGroup_to_play]

lemma removeCaptured_to_play (s : Position) (color : Color)
    (captured : List (Nat × Nat)) :
    (removeCaptured s color captured).to_play = s.to_play := by
  unfold removeCaptured
  induction captured generalizing s with
  | nil => rfl
  | cons x xs ih => rw [List.foldl_cons, ih, captureStep_to_play]

lemma updateKo_to_play (s : Position) (captured : List (Nat × Nat))
    (pk oc : Color) : (updateKo s captured pk oc).to_play = s.to_play := by
  unfold updateKo
  rcases captured with _ | ⟨⟨g, d⟩, rest⟩
  · rfl
  · rcases rest with _ | _
    · dsimp only
      split <;> rfl
    · rfl

lemma AddStoneToBoard_to_play (s : Position) (c : Nat) (color : Color) :
    (AddStoneToBoard s c color).to_play = s.to_play := by
  unfold AddStoneToBoard addStonePlaced
  rw [updateKo_to_play, removeCaptured_to_play, placeStone_to_play]

/-! ### Claim theorems -/

/-- C8: for every position and color argument, a pass move leaves stones,
the group pool, the capture counters and komi unchanged (and the scratch
visitors), ignores the color argument, sets `ko` to Invalid, increments
`n` and `num_consecutive_passes`, flips `to_play` and records the pass as
the previous move. -/
theorem pass_frame_effect (s : Position) (color : Color) :
    PlayMove s kPass color =
      { s with n := s.n + 1,
               num_consecutive_passes := s.num_consecutive_passes + 1,
               ko := kInvalid,
               to_play := OtherColor s.to_play,
               previous_move := kPass } :=
  PlayMove_pass s color

/-- C10: an explicitly colored non-pass `PlayMove` behaves exactly like
first overriding `to_play` with that color and then playing with the
default Empty color (so the legality test the source asserts is the one
of the overridden position), and on return `to_play` is the opposite
color. -/
theorem playmove_color_override (s : Position) (c : Nat) (k : Color)
    (hc : c ≠ kPass) (hk : k ≠ Color.empty) :
    PlayMove s c k = PlayMove { s with to_play := k } c Color.empty ∧
      (PlayMove s c k).to_play = OtherColor k := by
  constructor
  · simp [PlayMove, hc, hk]
  · rw [PlayMove_nonpass s c k hc]
    simp only [if_neg hk]
    rw [AddStoneToBoard_to_play]

/-- Witness for C10 at a concrete input: the override equivalence for
White playing the center point of the empty board. -/
theorem playmove_color_override_witness :
    PlayMove (emptyPosition 0 Color.black) 40 Color.white =
      PlayMove { emptyPosition 0 Color.black with to_play := Color.white }
        40 Color.empty ∧
    (PlayMove (emptyPosition 0 Color.black) 40 Color.white).to_play =
      OtherColor Color.white :=
  playmove_color_override (emptyPosition 0 Color.black) 40 Color.white
    (by decide) (by decide)

/-- C1 fails on the code: after the legal game `captureMoves` (a White
stone on the corner is captured by two Black stones), the captured white
group's id 1 is still allocated — three ids allocated, none freed — and
its record says `size = 1` and `num_liberties = 0`, yet no cell on the
board is tagged with id 1.  `RemoveGroup` empties the cells but never
frees the group, so the stated invariant is violated for group 1. -/
theorem capture_leaves_stale_group :
    legalSeq (emptyPosition 0 Color.black) captureMoves = true ∧
    capturePos.groups.groups.length = 3 ∧
    capturePos.groups.free_ids = [] ∧
    (capturePos.groups.get 1).size = 1 ∧
    (capturePos.groups.get 1).num_liberties = 0 ∧
    stonesWithGroup capturePos.stones 1 = 0 := by decide

/-- C5 fails on the code: `poolMoves` is a legal 82-move game whose 76
single-stone captures each allocate a fresh group id while `RemoveGroup`
never frees the captured id, so the number of ids allocated and not freed
reaches 82 > `kMaxNumGroups` = `boardArea`; the cycle can be extended
indefinitely, so no finite pool capacity suffices. -/
theorem group_pool_exhaustion :
    legalSeq (emptyPosition 0 Color.black) poolMoves = true ∧
    poolPos.groups.free_ids = [] ∧
    poolPos.groups.allocatedCount = 82 ∧
    kMaxNumGroups < poolPos.groups.allocatedCount := by decide

/-- C6 fails on the code: `Begin` clears the tags only when the
pre-increment epoch is zero, so the 256th `Begin` (all with `Done` holding)
wraps the epoch to 0 without clearing, and the very first `Visit` of a
point in that traversal returns false instead of true; one traversal
earlier, at epoch 255, the same first `Visit` correctly returns true. -/
theorem board_visitor_epoch_wrap :
    ((BoardVisitor.Begin)^[255] ({} : BoardVisitor)).Done = true ∧
    (((BoardVisitor.Begin)^[255] ({} : BoardVisitor)).Visit 0).1 = true ∧
    ((BoardVisitor.Begin)^[256] ({} : BoardVisitor)).Done = true ∧
    ((BoardVisitor.Begin)^[256] ({} : BoardVisitor)).epoch = 0 ∧
    (((BoardVisitor.Begin)^[256] ({} : BoardVisitor)).Visit 0).1 = false := by
  decide

/-- C7 is falsified as stated: three consecutive passes from the empty
board drive `num_consecutive_passes` to 3, outside {0,1,2}. -/
theorem three_passes_counterexample :
    (playMoves (emptyPosition 0 Color.black)
      [(kPass, Color.empty), (kPass, Color.empty),
       (kPass, Color.empty)]).num_consecutive_passes = 3 ∧
    ¬ ((playMoves (emptyPosition 0 Color.black)
        [(kPass, Color.empty), (kPass, Color.empty),
         (kPass, Color.empty)]).num_consecutive_passes = 0 ∨
       (playMoves (emptyPosition 0 Color.black)
        [(kPass, Color.empty), (kPass, Color.empty),
         (kPass, Color.empty)]).num_consecutive_passes = 1 ∨
       (playMoves (emptyPosition 0 Color.black)
        [(kPass, Color.empty), (kPass, Color.empty),
         (kPass, Color.empty)]).num_consecutive_passes = 2) := by decide

lemma suicidalLoop_eq_false_iff (stones : List Stone) (pool : GroupPool)
    (oc : Color) (l : List Nat) :
    suicidalLoop stones pool oc l = false ↔
      ∃ nc ∈ l,
        (stoneAt stones nc).color = Color.empty ∨
        ((stoneAt stones nc).color = oc ∧
          (pool.get (stoneAt stones nc).group_id).num_liberties = 1) ∨
        ((stoneAt stones nc).color ≠ Color.empty ∧
          (stoneAt stones nc).color ≠ oc ∧
          (pool.get (stoneAt stones nc).group_id).num_liberties > 1) := by
  induction l with
  | nil => simp [suicidalLoop]
  | cons nc rest ih =>
      simp only [suicidalLoop]
      by_cases h1 : (stoneAt stones nc).color = Color.empty
      · simp [h1, List.exists_mem_cons_iff]
      · rw [if_neg h1]
        by_cases h2 : (stoneAt stones nc).color = oc
        · rw [if_pos h2]
          by_cases h3 :
              (pool.get (stoneAt stones nc).group_id).num_liberties = 1
          · simp [h1, h2, h3, List.exists_mem_cons_iff]
          · rw [if_neg h3, ih, List.exists_mem_cons_iff]
            have hfalse : ¬((stoneAt stones nc).color = Color.empty ∨
                ((stoneAt stones nc).color = oc ∧
                  (pool.get (stoneAt stones nc).group_id).num_liberties = 1) ∨
                ((stoneAt stones nc).color ≠ Color.empty ∧
                  (stoneAt stones nc).color ≠ oc ∧
                  (pool.get (stoneAt stones nc).group_id).num_liberties
                    > 1)) := by
              rintro (hx | ⟨-, hx⟩ | ⟨-, hx, -⟩)
              · exact h1 hx
              · exact h3 hx
              · exact hx h2
            simp [hfalse]
        · rw [if_neg h2]
          by_cases h4 :
              (pool.get (stoneAt stones nc).group_id).num_liberties > 1
          · simp [h1, h2, h4, List.exists_mem_cons_iff]
          · rw [if_neg h4, ih, List.exists_mem_cons_iff]
            simp [h1, h2, h4]

lemma nonempty_not_other (col a : Color)
    (h : col = Color.black ∨ col = Color.white) :
    (a ≠ Color.empty ∧ a ≠ OtherColor col) ↔ a = col := by
  rcases h with rfl | rfl <;> cases a <;> simp [OtherColor]

/-- C2: for every position whose side to move is Black or White and every
coordinate, `IsMoveLegal` returns true exactly when the move is a pass,
or the cell is empty, differs from the ko point, and some neighbor is
empty, or some opponent neighbor group has exactly one liberty, or some
same-color neighbor group has more than one liberty. -/
theorem ismovelegal_characterization (p : Position) (c : Nat)
    (h : p.to_play = Color.black ∨ p.to_play = Color.white) :
    IsMoveLegal p c = true ↔
      (c = kPass ∨
        ((stoneAt p.stones c).color = Color.empty ∧ c ≠ p.ko ∧
          ∃ nc ∈ neighborCoords c,
            (stoneAt p.stones nc).color = Color.empty ∨
            ((stoneAt p.stones nc).color = OtherColor p.to_play ∧
              (p.groups.get
                (stoneAt p.stones nc).group_id).num_liberties = 1) ∨
            ((stoneAt p.stones nc).color = p.to_play ∧
              (p.groups.get
                (stoneAt p.stones nc).group_id).num_liberties > 1))) := by
  have hsuic : IsMoveSuicidal p.stones p.groups c p.to_play = false ↔
      ∃ nc ∈ neighborCoords c,
        (stoneAt p.stones nc).color = Color.empty ∨
        ((stoneAt p.stones nc).color = OtherColor p.to_play ∧
          (p.groups.get (stoneAt p.stones nc).group_id).num_liberties = 1) ∨
        ((stoneAt p.stones nc).color = p.to_play ∧
          (p.groups.get (stoneAt p.stones nc).group_id).num_liberties > 1) := by
    unfold IsMoveSuicidal
    rw [suicidalLoop_eq_false_iff]
    refine exists_congr fun nc => and_congr_right fun _ => ?_
    refine or_congr_right (or_congr_right ?_)
    rw [← and_assoc, nonempty_not_other p.to_play _ h]
  unfold IsMoveLegal
  by_cases hp : c = kPass
  · simp [hp]
  · rw [if_neg hp]
    by_cases he : (stoneAt p.stones c).color = Color.empty
    · rw [if_neg (not_not_intro he)]
      by_cases hko : c = p.ko
      · rw [if_pos hko]
        constructor
        · intro hcontra
          exact absurd hcontra (by simp)
        · rintro (hc | ⟨-, hne, -⟩)
          · exact absurd hc hp
          · exact absurd hko hne
      · rw [if_neg hko]
        cases hb : IsMoveSuicidal p.stones p.groups c p.to_play with
        | false =>
            rw [hb] at hsuic
            simp only [Bool.false_eq_true, if_false]
            simp [hp, he, hko, hsuic.mp rfl]
        | true =>
            rw [hb] at hsuic
            simp only [if_true]
            simp only [hp, false_or]
            constructor
            · intro hcontra
              exact absurd hcontra (by simp)
            · rintro ⟨-, -, hex⟩
              exact absurd (hsuic.mpr hex) (by simp)
    · rw [if_pos he]
      simp [hp, he]

/-- Witness for C2 at a concrete input: the center point of the empty
board is legal because it has an empty neighbor. -/
theorem ismovelegal_characterization_witness :
    IsMoveLegal (emptyPosition 0 Color.black) 40 = true :=
  (ismovelegal_characterization (emptyPosition 0 Color.black) 40
    (Or.inl rfl)).mpr
    (Or.inr ⟨by decide, by decide, 39, by decide, Or.inl (by decide)⟩)

lemma koishLoop_acc (stones : List Stone) (l : List Nat) (a : Color)
    (ha : a ≠ Color.empty) (k : Color) (hk : k ≠ Color.empty) :
    koishLoop stones l a = k ↔
      (k = a ∧ ∀ nc ∈ l, (stoneAt stones nc).color = a) := by
  induction l with
  | nil =>
      simp only [koishLoop, List.not_mem_nil, false_implies, implies_true,
        and_true]
      exact eq_comm
  | cons nc rest ih =>
      simp only [koishLoop]
      by_cases h1 : (stoneAt stones nc).color = Color.empty
      · rw [if_pos h1]
        constructor
        · intro h
          exact absurd h.symm hk
        · rintro ⟨rfl, hall⟩
          have h2 := hall nc (List.mem_cons_self nc rest)
          rw [h1] at h2
          exact absurd h2.symm ha
      · rw [if_neg h1]
        by_cases h2 : (stoneAt stones nc).color = a
        · rw [if_neg (not_not_intro h2), ih]
          constructor
          · rintro ⟨rfl, hall⟩
            refine ⟨rfl, fun x hx => ?_⟩
            rcases List.mem_cons.mp hx with rfl | hx
            · exact h2
            · exact hall x hx
          · rintro ⟨rfl, hall⟩
            exact ⟨rfl, fun x hx => hall x (List.mem_cons_of_mem nc hx)⟩
        · rw [if_pos h2, if_neg ha]
          constructor
          · intro h
            exact absurd h.symm hk
          · rintro ⟨rfl, hall⟩
            exact absurd (hall nc (List.mem_cons_self nc rest)) h2

lemma koishLoop_empty_acc (stones : List Stone) (l : List Nat) (k : Color)
    (hk : k ≠ Color.empty) :
    koishLoop stones l Color.empty = k ↔
      (l ≠ [] ∧ ∀ nc ∈ l, (stoneAt stones nc).color = k) := by
  cases l with
  | nil =>
      simp only [koishLoop, ne_eq, not_true_eq_false, false_and, iff_false]
      exact fun h => hk h.symm
  | cons nc rest =>
      simp only [koishLoop]
      by_cases h1 : (stoneAt stones nc).color = Color.empty
      · rw [if_pos h1]
        constructor
        · intro h
          exact absurd h.symm hk
        · rintro ⟨-, hall⟩
          have h2 := hall nc (List.mem_cons_self nc rest)
          rw [h1] at h2
          exact absurd h2.symm hk
      · rw [if_neg h1, if_pos fun h => h1 h, if_true,
          koishLoop_acc stones rest _ h1 k hk]
        constructor
        · rintro ⟨rfl, hall⟩
          refine ⟨List.cons_ne_nil nc rest, fun x hx => ?_⟩
          rcases List.mem_cons.mp hx with rfl | hx
          · rfl
          · exact hall x hx
        · rintro ⟨-, hall⟩
          have h2 := hall nc (List.mem_cons_self nc rest)
          refine ⟨h2.symm, fun x hx => ?_⟩
          rw [hall x (List.mem_cons_of_mem nc hx), h2]

lemma neighborCoords_ne_nil : ∀ c, c < boardArea → neighborCoords c ≠ [] := by
  decide

/-- C3 fails as stated: after the legal game `cornerMoves`, the corner
point 0 (which has only two in-board neighbors) is empty with both
neighbors black, and `IsKoish` returns Black — so a corner point can be
koish, contradicting both the "all four neighbors" condition and the "in
particular" sentence of the claim. -/
theorem iskoish_corner_counterexample :
    legalSeq (emptyPosition 0 Color.black) cornerMoves = true ∧
    (stoneAt cornerPos.stones 0).color = Color.empty ∧
    (neighborCoords 0).length = 2 ∧
    IsKoish cornerPos.stones 0 = Color.black := by decide

/-- C3 amended: for every board and on-board coordinate, `IsKoish` returns
the non-empty color `k` exactly when the cell is empty and every in-board
neighbor (of which every point has at least one) is a stone of color `k`;
corner and edge points have fewer than four neighbors but can still be
koish. -/
theorem iskoish_characterization (stones : List Stone) (c : Nat) (k : Color)
    (hc : c < boardArea) (hk : k ≠ Color.empty) :
    IsKoish stones c = k ↔
      ((stoneAt stones c).color = Color.empty ∧
        ∀ nc ∈ neighborCoords c, (stoneAt stones nc).color = k) := by
  unfold IsKoish
  by_cases h : (stoneAt stones c).color = Color.empty
  · rw [if_neg (not_not_intro h), koishLoop_empty_acc stones _ k hk]
    simp [h, neighborCoords_ne_nil c hc]
  · rw [if_pos h]
    constructor
    · intro he
      exact absurd he.symm hk
    · rintro ⟨h1, -⟩
      exact absurd h1 h

/-- Witness for C3's amended theorem at a concrete input: the corner
characterization instantiated on `cornerPos` with color Black. -/
theorem iskoish_characterization_witness :
    IsKoish cornerPos.stones 0 = Color.black ↔
      ((stoneAt cornerPos.stones 0).color = Color.empty ∧
        ∀ nc ∈ neighborCoords 0,
          (stoneAt cornerPos.stones nc).color = Color.black) :=
  iskoish_characterization cornerPos.stones 0 Color.black (by decide)
    (by decide)

/-- C7 amended: starting from the empty board, after every sequence of
`PlayMove` calls `num_consecutive_passes` equals the length of the
trailing run of Pass moves (in particular it is 2 exactly when exactly the
last two moves were passes, and it exceeds 2 when passing continues after
the game is over). -/
theorem ncp_eq_trailing_passes (komi : ℚ) (to_play : Color)
    (ms : List (Nat × Color)) :
    (playMoves (emptyPosition komi to_play) ms).num_consecutive_passes =
      trailingPasses ms := by
  induction ms using List.reverseRecOn with
  | nil => rfl
  | append_singleton ms m ih =>
      rcases m with ⟨c, col⟩
      unfold playMoves at ih ⊢
      rw [List.foldl_append, List.foldl_cons, List.foldl_nil]
      unfold trailingPasses
      rw [List.reverse_append]
      simp only [List.reverse_singleton, List.singleton_append,
        List.takeWhile_cons]
      by_cases h : c = kPass
      · subst h
        rw [PlayMove_pass]
        simp only [decide_eq_true_eq, if_pos rfl, List.length_cons]
        rw [ih]
        rfl
      · rw [PlayMove_nonpass _ _ _ h]
        simp [h]

lemma neighborCoords_lt :
    ∀ c, c < boardArea → ∀ nc ∈ neighborCoords c, nc < boardArea := by
  decide

lemma scanStep_captured (stones : List Stone) (color oc : Color)
    (acc : ScanResult) (nc : Nat) :
    (scanStep stones color oc acc nc).captured = acc.captured ∨
      ((scanStep stones color oc acc nc).captured =
        acc.captured ++ [((stoneAt stones nc).group_id, nc)] ∧
       (stoneAt stones nc).color ≠ Color.empty) := by
  unfold scanStep
  dsimp only
  split_ifs with h1 h2 h3 h4 h5 <;> simp [h1]

lemma foldl_scanStep_captured (stones : List Stone) (color oc : Color)
    (ncs0 : List Nat) :
    ∀ (l : List Nat) (acc : ScanResult),
      (∀ x ∈ l, x ∈ ncs0) →
      (∀ e ∈ acc.captured,
        (stoneAt stones e.2).color ≠ Color.empty ∧ e.2 ∈ ncs0) →
      ∀ e ∈ (l.foldl (scanStep stones color oc) acc).captured,
        (stoneAt stones e.2).color ≠ Color.empty ∧ e.2 ∈ ncs0 := by
  intro l
  induction l with
  | nil =>
      intro acc _ hacc
      exact hacc
  | cons x xs ih =>
      intro acc hsub hacc
      rw [List.foldl_cons]
      refine ih _ (fun y hy => hsub y (List.mem_cons_of_mem x hy)) ?_
      intro e he
      rcases scanStep_captured stones color oc acc x with hcap | ⟨hcap, hne⟩
      · exact hacc e (hcap ▸ he)
      · rw [hcap] at he
        rcases List.mem_append.mp he with he | he
        · exact hacc e he
        · rw [List.mem_singleton] at he
          subst he
          exact ⟨hne, hsub x (List.mem_cons_self x xs)⟩

lemma addScan_captured (stones : List Stone) (pool : GroupPool)
    (color : Color) (ncs : List Nat) :
    ∀ e ∈ (addScan stones pool color ncs).captured,
      (stoneAt stones e.2).color ≠ Color.empty ∧ e.2 ∈ ncs := by
  unfold addScan
  exact foldl_scanStep_captured stones color (OtherColor color) ncs ncs
    { pool } (fun x hx => hx) (by intro e he; cases he)

lemma updateKo_ko_mem (sp : Position) (captured : List (Nat × Nat))
    (pk oc : Color) :
    (updateKo sp captured pk oc).ko = kInvalid ∨
      ∃ e ∈ captured, (updateKo sp captured pk oc).ko = e.2 := by
  unfold updateKo
  rcases captured with _ | ⟨⟨g, d⟩, rest⟩
  · left
    rfl
  · rcases rest with _ | ⟨e2, rest⟩
    · dsimp only
      split_ifs
      · right
        exact ⟨(g, d), List.mem_singleton_self _, rfl⟩
      · left
        rfl
    · left
      rfl

lemma overriddenPos_stones (s : Position) (col : Color) :
    (overriddenPos s col).stones = s.stones := by
  unfold overriddenPos
  split <;> rfl

lemma overriddenPos_groups (s : Position) (col : Color) :
    (overriddenPos s col).groups = s.groups := by
  unfold overriddenPos
  split <;> rfl

lemma PlayMove_eq (s : Position) (c : Nat) (col : Color) (h : c ≠ kPass) :
    PlayMove s c col =
      (let s'' := AddStoneToBoard (overriddenPos s col) c (moverColor s col)
       { s'' with n := s''.n + 1,
                  num_consecutive_passes := 0,
                  to_play := OtherColor s''.to_play,
                  previous_move := c }) := by
  by_cases hcol : col = Color.empty <;>
    simp [PlayMove, h, hcol, overriddenPos, moverColor]

lemma updateKo_ko_single (sp : Position) (g d : Nat) (pk oc : Color)
    (h1 : (sp.groups.get g).size = 1) (h2 : pk = oc) :
    (updateKo sp [(g, d)] pk oc).ko = d := by
  unfold updateKo
  dsimp only
  rw [if_pos ⟨h1, h2⟩]

lemma ismovelegal_ko_false (p : Position) (d : Nat) (hd : d < boardArea)
    (hko : p.ko = d) : IsMoveLegal p d = false := by
  have hdp : d ≠ kPass := by
    unfold kPass
    exact Nat.ne_of_lt hd
  unfold IsMoveLegal
  rw [if_neg hdp]
  by_cases he : (stoneAt p.stones d).color = Color.empty
  · rw [if_neg (not_not_intro he), if_pos hko.symm]
  · rw [if_pos he]

/-- C4: (a) if a non-pass `PlayMove` captures exactly one opponent group
whose record has size 1, from a point that was koish for the opponent
color, then the resulting ko point is the captured stone's coordinate and
an immediate play there — by either side — is reported illegal; (b) after
one further `PlayMove` of any kind (a pass or any stone placement) from a
position whose cell `p` is empty, the ko point differs from `p`, so a play
at `p` is no longer rejected on ko grounds. -/
theorem ko_ban_and_clearance :
    (∀ (s : Position) (c : Nat) (col : Color) (g d : Nat),
      c < boardArea →
      (addStoneScan (overriddenPos s col) c (moverColor s col)).captured =
        [(g, d)] →
      ((addStonePlaced (overriddenPos s col) c
          (moverColor s col)).groups.get g).size = 1 →
      IsKoish s.stones c = OtherColor (moverColor s col) →
      (PlayMove s c col).ko = d ∧
        IsMoveLegal (PlayMove s c col) d = false) ∧
    (∀ (s : Position) (c : Nat) (col : Color) (p : Nat),
      p < boardArea →
      (stoneAt s.stones p).color = Color.empty →
      (PlayMove s c col).ko ≠ p) := by
  constructor
  · intro s c col g d hc h1 h2 h3
    have hcpass : c ≠ kPass := Nat.ne_of_lt hc
    have hmem : (g, d) ∈
        (addStoneScan (overriddenPos s col) c (moverColor s col)).captured := by
      rw [h1]
      exact List.mem_singleton_self _
    have hd : d < boardArea :=
      neighborCoords_lt c hc d
        (addScan_captured (overriddenPos s col).stones
          (overriddenPos s col).groups (moverColor s col)
          (neighborCoords c) (g, d) hmem).2
    have hko : (PlayMove s c col).ko = d := by
      rw [PlayMove_eq s c col hcpass]
      show (AddStoneToBoard (overriddenPos s col) c (moverColor s col)).ko = d
      unfold AddStoneToBoard
      rw [h1]
      exact updateKo_ko_single _ g d _ _ h2
        (by rw [overriddenPos_stones, h3])
    refine ⟨hko, ismovelegal_ko_false _ d hd hko⟩
  · intro s c col p hp hempty
    by_cases hcpass : c = kPass
    · subst hcpass
      rw [PlayMove_pass]
      show kInvalid ≠ p
      unfold kInvalid
      omega
    · rw [PlayMove_eq s c col hcpass]
      show (AddStoneToBoard (overriddenPos s col) c (moverColor s col)).ko ≠ p
      unfold AddStoneToBoard
      rcases updateKo_ko_mem
          (addStonePlaced (overriddenPos s col) c (moverColor s col))
          (addStoneScan (overriddenPos s col) c (moverColor s col)).captured
          (IsKoish (overriddenPos s col).stones c)
          (OtherColor (moverColor s col)) with hko | ⟨e, hmem, hko⟩
      · rw [hko]
        unfold kInvalid
        omega
      · rw [hko]
        have hne := (addScan_captured (overriddenPos s col).stones
          (overriddenPos s col).groups (moverColor s col)
          (neighborCoords c) e hmem).1
        rw [overriddenPos_stones] at hne
        intro hcontra
        rw [hcontra] at hne
        exact hne hempty

lemma stoneAt_map_swap (l : List Stone) (c : Nat) :
    stoneAt (l.map swapStone) c = swapStone (stoneAt l c) := by
  induction l generalizing c with
  | nil => rfl
  | cons a as ih =>
      cases c with
      | zero => rfl
      | succ n => exact ih n

lemma OtherColor_eq_empty (col : Color) :
    OtherColor col = Color.empty ↔ col = Color.empty := by
  cases col <;> simp [OtherColor]

lemma swapFB_or (col : Color) :
    ∀ fb, fb < 4 →
      swapFB (fb ||| colorBits col) =
        swapFB fb ||| colorBits (OtherColor col) ∧
      fb ||| colorBits col < 4 := by
  cases col <;> decide

lemma areaStep_swap (stones : List Stone) (bv : BoardVisitor) (fb : Nat)
    (hfb : fb < 4) (nc : Nat) :
    areaStep (stones.map swapStone) (bv, swapFB fb) nc =
      ((areaStep stones (bv, fb) nc).1,
       swapFB ((areaStep stones (bv, fb) nc).2)) ∧
    (areaStep stones (bv, fb) nc).2 < 4 := by
  unfold areaStep
  rw [stoneAt_map_swap]
  dsimp only
  rw [show (swapStone (stoneAt stones nc)).color =
    OtherColor (stoneAt stones nc).color from rfl]
  by_cases h : (stoneAt stones nc).color = Color.empty
  · rw [if_pos h, if_pos (show OtherColor (stoneAt stones nc).color =
      Color.empty by rw [h]; rfl)]
    exact ⟨rfl, hfb⟩
  · rw [if_neg h, if_neg (fun hc => h ((OtherColor_eq_empty _).mp hc))]
    refine ⟨?_, (swapFB_or _ fb hfb).2⟩
    rw [(swapFB_or ((stoneAt stones nc).color) fb hfb).1]

lemma areaFold_swap (stones : List Stone) (l : List Nat) :
    ∀ (bv : BoardVisitor) (fb : Nat), fb < 4 →
      (l.foldl (areaStep (stones.map swapStone)) (bv, swapFB fb) =
        ((l.foldl (areaStep stones) (bv, fb)).1,
         swapFB ((l.foldl (areaStep stones) (bv, fb)).2))) ∧
      (l.foldl (areaStep stones) (bv, fb)).2 < 4 := by
  induction l with
  | nil =>
      intro bv fb hfb
      exact ⟨rfl, hfb⟩
  | cons x xs ih =>
      intro bv fb hfb
      rw [List.foldl_cons, List.foldl_cons]
      obtain ⟨hstep, hlt⟩ := areaStep_swap stones bv fb hfb x
      rw [hstep]
      have h := ih (areaStep stones (bv, fb) x).1
        (areaStep stones (bv, fb) x).2 hlt
      rw [Prod.mk.eta] at h
      exact h

lemma scoreAreaLoop_swap (stones : List Stone) :
    ∀ (fuel : Nat) (bv : BoardVisitor) (nv fb : Nat), fb < 4 →
      (scoreAreaLoop (stones.map swapStone) fuel bv nv (swapFB fb) =
        ((scoreAreaLoop stones fuel bv nv fb).1,
         swapFB (scoreAreaLoop stones fuel bv nv fb).2.1,
         (scoreAreaLoop stones fuel bv nv fb).2.2)) ∧
      (scoreAreaLoop stones fuel bv nv fb).2.1 < 4 := by
  intro fuel
  induction fuel with
  | zero =>
      intro bv nv fb hfb
      rw [scoreAreaLoop, scoreAreaLoop]
      obtain ⟨hfold, hlt⟩ :=
        areaFold_swap stones (neighborCoords bv.Next.1) bv.Next.2 fb hfb
      rw [hfold]
      exact ⟨rfl, hlt⟩
  | succ f ih =>
      intro bv nv fb hfb
      rw [scoreAreaLoop, scoreAreaLoop]
      obtain ⟨hfold, hlt⟩ :=
        areaFold_swap stones (neighborCoords bv.Next.1) bv.Next.2 fb hfb
      rw [hfold]
      split
      · exact ⟨rfl, hlt⟩
      · exact ih _ _ _ hlt

lemma scoreEmptyArea_swap (stones : List Stone) (bv : BoardVisitor) :
    scoreEmptyArea (stones.map swapStone) bv =
      (-(scoreEmptyArea stones bv).1, (scoreEmptyArea stones bv).2) := by
  unfold scoreEmptyArea
  obtain ⟨heq, hlt⟩ := scoreAreaLoop_swap stones kFuel bv 0 0 (by decide)
  rw [show swapFB 0 = 0 from rfl] at heq
  rw [heq]
  dsimp only
  set n := (scoreAreaLoop stones kFuel bv 0 0).2.1 with hn
  interval_cases n <;> simp [swapFB]

lemma scoreFold_swap (stones : List Stone) (pool : GroupPool) (l : List Nat) :
    ∀ (score : Int) (bv : BoardVisitor) (gv : GroupVisitor),
      scoreFold (stones.map swapStone) pool l (-score, bv, gv) =
        (-(scoreFold stones pool l (score, bv, gv)).1,
         (scoreFold stones pool l (score, bv, gv)).2) := by
  induction l with
  | nil =>
      intro score bv gv
      rfl
  | cons c rest ih =>
      intro score bv gv
      rw [scoreFold, scoreFold]
      dsimp only
      rw [stoneAt_map_swap]
      by_cases h : (stoneAt stones c).color = Color.empty
      · rw [show (swapStone (stoneAt stones c)).color =
          OtherColor (stoneAt stones c).color from rfl]
        rw [if_pos (show OtherColor (stoneAt stones c).color = Color.empty by
          rw [h]; rfl), if_pos h]
        by_cases hv : (bv.Visit c).1 = true
        · rw [if_pos hv, if_pos hv, scoreEmptyArea_swap]
          dsimp only
          rw [show -score + -(scoreEmptyArea stones (bv.Visit c).2).1 =
            -(score + (scoreEmptyArea stones (bv.Visit c).2).1) by ring]
          exact ih _ _ _
        · rw [if_neg hv, if_neg hv]
          exact ih _ _ _
      · rw [show (swapStone (stoneAt stones c)).color =
          OtherColor (stoneAt stones c).color from rfl]
        rw [if_neg (fun hc => h ((OtherColor_eq_empty _).mp hc)), if_neg h]
        rw [show (swapStone (stoneAt stones c)).group_id =
          (stoneAt stones c).group_id from rfl]
        by_cases hv : (gv.Visit (stoneAt stones c).group_id).1 = true
        · rw [if_pos hv, if_pos hv]
          rcases hcol : (stoneAt stones c).color with _ | _ | _
          · exact absurd hcol h
          · rw [if_neg (show ¬ OtherColor Color.black = Color.black by
              intro hc; cases hc), if_pos rfl]
            rw [show -score - ((pool.get (stoneAt stones c).group_id).size :
              Int) = -(score + ((pool.get
                (stoneAt stones c).group_id).size : Int)) by ring]
            exact ih _ _ _
          · rw [if_pos (show OtherColor Color.white = Color.black from rfl),
              if_neg (show ¬ Color.white = Color.black by intro hc; cases hc)]
            rw [show -score + ((pool.get (stoneAt stones c).group_id).size :
              Int) = -(score - ((pool.get
                (stoneAt stones c).group_id).size : Int)) by ring]
            exact ih _ _ _
        · rw [if_neg hv, if_neg hv]
          exact ih _ _ _

lemma CalculateScoreInt_swap (s : Position) :
    (CalculateScoreInt (swapPosition s)).1 = -(CalculateScoreInt s).1 := by
  unfold CalculateScoreInt swapPosition
  dsimp only
  have h := scoreFold_swap s.stones s.groups (List.range boardArea) 0
    s.board_visitor.Begin s.group_visitor.Begin
  simp only [neg_zero] at h
  rw [h]

set_option maxHeartbeats 4000000 in
/-- C9: swapping the colors of every stone negates the komi-free part of
the score: `CalculateScore(P') + komi = -(CalculateScore(P) + komi)`; and
on the empty board the score is exactly minus komi.  (`CalculateScore`
models the C++ float as an exact rational.) -/
theorem calculatescore_symmetry :
    (∀ s : Position,
      CalculateScore (swapPosition s) + s.komi =
        -(CalculateScore s + s.komi)) ∧
    (∀ (komi : ℚ) (to_play : Color),
      CalculateScore (emptyPosition komi to_play) = -komi) := by
  constructor
  · intro s
    unfold CalculateScore
    rw [CalculateScoreInt_swap,
      show (swapPosition s).komi = s.komi from rfl]
    push_cast
    ring
  · intro komi to_play
    unfold CalculateScore
    have h0 : (CalculateScoreInt (emptyPosition komi to_play)).1 =
        (CalculateScoreInt (emptyPosition 0 Color.black)).1 := rfl
    rw [h0,
      show (CalculateScoreInt (emptyPosition 0 Color.black)).1 = 0 by decide,
      show (emptyPosition komi to_play).komi = komi from rfl]
    norm_num

/-- Witness for C4 at the concrete ko scenario: Black takes the ko at 41
capturing the single white stone on 40; the ko point becomes 40 and a play
at 40 is illegal; after a subsequent pass the ko point is no longer 40. -/
theorem ko_ban_and_clearance_witness :
    (PlayMove koSetup 41 Color.black).ko = 40 ∧
    IsMoveLegal (PlayMove koSetup 41 Color.black) 40 = false ∧
    (PlayMove koTaken kPass Color.empty).ko ≠ 40 := by
  have ha := ko_ban_and_clearance.1 koSetup 41 Color.black 7 40 (by decide)
    (by decide) (by decide) (by decide)
  have hb := ko_ban_and_clearance.2 koTaken kPass Color.empty 40 (by decide)
    (by decide)
  exact ⟨ha.1, ha.2, hb⟩

end Minigo
